import Mathlib

/-!
Verification development for the adaptive credit backend's schedule and
statistics engine (`src/app.py`).

Modelling conventions:
* Python/numpy `float64` values are modelled by `PFloat`: a finite rational,
  `+inf`, `-inf`, or `NaN`.  Rationals are exact, so float rounding and
  overflow are not modelled; every "within floating-point tolerance"
  statement is settled as an exact rational equality, which implies the
  tolerance.  Signed zero is not modelled (`ℚ` has a single zero).
* pandas column arithmetic (`-`, `/`, `*`, `.sum()`, `.mean()` with its
  default NaN-skipping, `.pct_change()`, `.idxmax()`, `.idxmin()`) is
  embedded element-wise over Lean lists, following numpy/IEEE-754 semantics
  for `inf`/`NaN` propagation.
* The HTTP layer (Flask request plumbing) is out of scope per the spec; the
  pipeline is modelled from the point where a parsed table (column names
  plus raw string cells) is available, mirroring `generate_schedule` from
  the column-validation step onwards.
-/

/-- Model of a Python `float64` value: a finite rational, one of the two
infinities, or NaN.  Rounding and overflow of real doubles are not
modelled. -/
inductive PFloat where
  | fin : ℚ → PFloat
  | pinf : PFloat
  | ninf : PFloat
  | nan : PFloat
deriving DecidableEq, Repr

namespace PFloat

/-- IEEE-754 negation on the float model. -/
def neg : PFloat → PFloat
  | fin q => fin (-q)
  | pinf => ninf
  | ninf => pinf
  | nan => nan

/-- IEEE-754 addition on the float model (`inf + -inf = NaN`, NaN
propagates). -/
def add : PFloat → PFloat → PFloat
  | fin a, fin b => fin (a + b)
  | fin _, pinf => pinf
  | fin _, ninf => ninf
  | pinf, fin _ => pinf
  | ninf, fin _ => ninf
  | pinf, pinf => pinf
  | ninf, ninf => ninf
  | pinf, ninf => nan
  | ninf, pinf => nan
  | nan, _ => nan
  | _, nan => nan

/-- IEEE-754 subtraction on the float model. -/
def sub (a b : PFloat) : PFloat := add a (neg b)

/-- IEEE-754 multiplication on the float model (`0 * inf = NaN`, NaN
propagates). -/
def mul : PFloat → PFloat → PFloat
  | fin a, fin b => fin (a * b)
  | fin a, pinf => if 0 < a then pinf else if a < 0 then ninf else nan
  | fin a, ninf => if 0 < a then ninf else if a < 0 then pinf else nan
  | pinf, fin b => if 0 < b then pinf else if b < 0 then ninf else nan
  | ninf, fin b => if 0 < b then ninf else if b < 0 then pinf else nan
  | pinf, pinf => pinf
  | ninf, ninf => pinf
  | pinf, ninf => ninf
  | ninf, pinf => ninf
  | nan, _ => nan
  | _, nan => nan

/-- numpy division on the float model: `x/0` is `±inf` for nonzero finite
`x` (numpy emits a warning but produces the infinity), `0/0` is NaN, NaN
propagates.  Signed zero is not modelled, so a positive numerator over zero
always gives `+inf`. -/
def div : PFloat → PFloat → PFloat
  | fin a, fin b =>
      if b ≠ 0 then fin (a / b)
      else if 0 < a then pinf
      else if a < 0 then ninf
      else nan
  | fin _, pinf => fin 0
  | fin _, ninf => fin 0
  | pinf, fin b => if b < 0 then ninf else pinf
  | ninf, fin b => if b < 0 then pinf else ninf
  | pinf, pinf => nan
  | pinf, ninf => nan
  | ninf, pinf => nan
  | ninf, ninf => nan
  | nan, _ => nan
  | _, nan => nan

/-- Whether the value is NaN.  This is exactly what `pd.isna` /
`np.isnan` detect on a float scalar: they are `False` on `±inf`. -/
def isNaN : PFloat → Bool
  | nan => true
  | _ => false

end PFloat

/-- `format_float` from `src/app.py`: returns `0.0` when
`pd.isna(value) or np.isnan(value)` holds, and the unchanged float
otherwise.  Both predicates are `False` on `±inf`, so infinities pass
through; the `except` branch (non-numeric arguments) cannot trigger on a
float argument. -/
def format_float (x : PFloat) : PFloat :=
  if x.isNaN then .fin 0 else x

/-- Characters kept by the cleaning regex `[^\d.-]` in
`generate_schedule`: digits, the decimal point, and the minus sign
(anywhere in the string). -/
def keptChar (c : Char) : Bool :=
  c.isDigit || c = '.' || c = '-'

/-- `str.replace(r'[^\d.-]', '', regex=True)` from `generate_schedule`:
drop every character that is not a digit, a dot, or a minus sign.  The
result is kept as a character list. -/
def stripNonNumeric (s : String) : List Char :=
  s.data.filter keptChar

/-- Value of a digit string, `none` if any character is not a digit; the
empty list gives `some 0` (emptiness is checked by the caller). -/
def digitsVal? (cs : List Char) : Option ℕ :=
  cs.foldl
    (fun acc c =>
      acc.bind fun n => if c.isDigit then some (10 * n + (c.toNat - 48)) else none)
    (some 0)

/-- Split a character list at every dot, keeping the (possibly empty)
segments between dots. -/
def splitOnDot : List Char → List (List Char)
  | [] => [[]]
  | c :: rest =>
      if c = '.' then [] :: splitOnDot rest
      else
        match splitOnDot rest with
        | p :: ps => (c :: p) :: ps
        | [] => [[c]]

/-- Parse an unsigned decimal literal the way Python's float constructor
(and hence `pd.to_numeric`) accepts it: `digits`, `digits.`, `.digits`, or
`digits.digits`, with at least one digit overall; more than one dot, or any
non-digit character, fails. -/
def parseUnsigned (cs : List Char) : Option ℚ :=
  match splitOnDot cs with
  | [intPart] =>
      if intPart.isEmpty then none
      else (digitsVal? intPart).map fun n => (n : ℚ)
  | [intPart, fracPart] =>
      if intPart.isEmpty && fracPart.isEmpty then none
      else
        (digitsVal? intPart).bind fun i =>
          (digitsVal? fracPart).map fun f =>
            (i : ℚ) + (f : ℚ) / ((10 : ℚ) ^ fracPart.length)
  | _ => none

/-- `pd.to_numeric(·, errors='coerce')` on a cleaned cell: an optional
leading minus sign followed by an unsigned decimal literal; anything else
coerces to NaN (`none`). -/
def parseNumeric (cs : List Char) : Option ℚ :=
  match cs with
  | '-' :: rest => (parseUnsigned rest).map Neg.neg
  | _ => parseUnsigned cs

/-- The per-cell numeric normalization of `generate_schedule` (lines
138-143): clean with the regex `[^\d.-]`, coerce to a number, and fill
failures (NaN) with `0`. -/
def normalizeCell (s : String) : ℚ :=
  (parseNumeric (stripNonNumeric s)).getD 0

/-- Modelled from the spec: the Numeric Normalizer contract of §4.1 reads
"strip every character that is not a digit, decimal point, or leading
minus sign"; a minus sign is kept only in leading position, unlike the
source's regex which keeps every minus sign.  Used to compare the spec's
wording against the source. -/
def specStrip (s : String) : List Char :=
  match s.data with
  | '-' :: rest => '-' :: rest.filter fun c => c.isDigit || c = '.'
  | l => l.filter fun c => c.isDigit || c = '.'

/-- Modelled from the spec: the §4.1 normalizer — spec-side strip, then
parse, with `0.0` on failure. -/
def specNormalizeCell (s : String) : ℚ :=
  (parseNumeric (specStrip s)).getD 0

/-- One input row as it stands after CSV parsing: the four required cells,
with the numeric cells still raw text (`astype(str)` in the source turns
any numeric cell into its string form). -/
structure RawRow where
  month : String
  date : String
  totalIncome : String
  fixedExpenses : String
deriving DecidableEq, Repr

/-- One row after numeric normalization of the income and expense
columns. -/
structure Row where
  month : String
  date : String
  income : ℚ
  expense : ℚ
deriving DecidableEq, Repr

/-- Normalize the two numeric cells of one row (lines 138-143). -/
def normalizeRow (r : RawRow) : Row :=
  ⟨r.month, r.date, normalizeCell r.totalIncome, normalizeCell r.fixedExpenses⟩

/-- `df['Available Money'] = df['Total Income'] - df['Fixed Expenses']`
(line 153), per row. -/
def availableMoney (r : Row) : ℚ :=
  r.income - r.expense

/-- `df['Savings Rate'] = (df['Available Money'] / df['Total Income']) * 100`
(line 154), per row, with numpy division semantics (NaN on `0/0`, `±inf` on
`x/0`). -/
def savingsRateRaw (r : Row) : PFloat :=
  .mul (.div (.fin (availableMoney r)) (.fin r.income)) (.fin 100)

example : savingsRateRaw ⟨"Jan", "d", 1000, 600⟩ = .fin 40 := by
  simp [savingsRateRaw, availableMoney, PFloat.div, PFloat.mul]
  norm_num

example : savingsRateRaw ⟨"Jan", "d", 0, 5⟩ = .ninf := by
  simp [savingsRateRaw, availableMoney, PFloat.div, PFloat.mul]
  norm_num

/-- pandas `Series.mean()` with its default `skipna=True`: drop the NaN
entries, return NaN when nothing remains, otherwise sum the remaining
entries (IEEE addition, so a leftover infinity propagates) and divide by
their count. -/
def meanSkipna (xs : List PFloat) : PFloat :=
  let valid := xs.filter fun x => !x.isNaN
  if valid.isEmpty then .nan
  else .div (valid.foldl .add (.fin 0)) (.fin valid.length)

/-- pandas `Series.mean()` on an all-finite column: NaN on an empty
series, the exact average otherwise. -/
def meanQ (l : List ℚ) : PFloat :=
  if l.isEmpty then .nan else .fin (l.sum / l.length)

/-- pandas `Series.pct_change()`: a leading NaN, then
`s[i] / s[i-1] - 1` for each later position, with numpy division
semantics.  The columns it is applied to are finite after
normalization. -/
def pct_change (s : List ℚ) : List PFloat :=
  match s with
  | [] => []
  | _ :: xs =>
      .nan :: (xs.zip s).map fun p => .sub (.div (.fin p.1) (.fin p.2)) (.fin 1)

/-- A trend entry of `calculate_trends`:
`format_float(series.pct_change().mean() * 100)`. -/
def trendRate (s : List ℚ) : PFloat :=
  format_float (.mul (meanSkipna (pct_change s)) (.fin 100))

/-- The `growth` entry of `calculate_monthly_stats`:
`format_float(((series.iloc[-1] / series.iloc[0]) - 1) * 100)`.  On an
empty series `iloc` raises (caught by the outer handler); that case is
unreachable here because the pipeline rejects empty datasets before
computing statistics, and is mapped to NaN. -/
def growthStat (s : List ℚ) : PFloat :=
  match s.head?, s.getLast? with
  | some f, some l =>
      format_float (.mul (.sub (.div (.fin l) (.fin f)) (.fin 1)) (.fin 100))
  | _, _ => .nan

/-- pandas `Series.idxmax()` on a finite column, paired with the maximal
value: the index of the first occurrence of the maximum (a strictly
greater later value is required to displace the current best). -/
def firstMax : List ℚ → Option (ℕ × ℚ)
  | [] => none
  | x :: xs =>
      match firstMax xs with
      | none => some (0, x)
      | some (j, m) => if x < m then some (j + 1, m) else some (0, x)

/-- pandas `Series.idxmin()` on a finite column, paired with the minimal
value: the index of the first occurrence of the minimum. -/
def firstMin : List ℚ → Option (ℕ × ℚ)
  | [] => none
  | x :: xs =>
      match firstMin xs with
      | none => some (0, x)
      | some (j, m) => if m < x then some (j + 1, m) else some (0, x)

/-- `df.loc[df['Available Money'].idxmax(), 'Month']` (line 65): the month
label of the first row attaining the maximal available money. -/
def bestMonth (rows : List Row) : Option String :=
  (firstMax (rows.map availableMoney)).bind fun p => rows[p.1]?.map Row.month

/-- `df.loc[df['Available Money'].idxmin(), 'Month']` (line 66): the month
label of the first row attaining the minimal available money. -/
def worstMonth (rows : List Row) : Option String :=
  (firstMin (rows.map availableMoney)).bind fun p => rows[p.1]?.map Row.month

/-- One element of the output `data` array (lines 167-172).  `payment` and
`remaining_balance` are finite because the normalized columns are finite
and the accumulator only adds finite values; `savings_rate` can be
infinite, so it stays a `PFloat`. -/
structure ScheduleRow where
  date : String
  payment : ℚ
  remaining_balance : ℚ
  savings_rate : PFloat
deriving DecidableEq, Repr

/-- The schedule loop of `generate_schedule` (lines 160-172): a single
left-to-right pass threading `accumulated_balance` (seeded `0.0` by the
caller).  `format_float` is the identity on the finite `payment` and
balance, and guards only the per-row savings rate. -/
def scheduleData : List Row → ℚ → List ScheduleRow
  | [], _ => []
  | r :: rs, acc =>
      let am := availableMoney r
      ⟨r.date, am, acc + am, format_float (savingsRateRaw r)⟩ ::
        scheduleData rs (acc + am)

/-- The aggregate `metrics` object (lines 179-191) together with the
nested `trends` (lines 40-44) and `monthly_stats` entries the claims
concern.  `median` and `std` are omitted: they are claimed by no claim and
a sample standard deviation is not rational-valued. -/
structure Metrics where
  total_amount : PFloat
  average_payment : PFloat
  min_payment : PFloat
  max_payment : PFloat
  completion_date : Option String
  total_months : ℕ
  total_income : PFloat
  total_expenses : PFloat
  average_savings_rate : PFloat
  income_trend : PFloat
  expense_trend : PFloat
  overall_savings_rate : PFloat
  income_growth : PFloat
  expense_growth : PFloat
  best_month : Option String
  worst_month : Option String
deriving DecidableEq, Repr

/-- Build the metrics from the normalized table, mirroring
`calculate_trends`, `calculate_monthly_stats` and the `metrics` dict of
`generate_schedule`. -/
def buildMetrics (rows : List Row) : Metrics :=
  let avail := rows.map availableMoney
  let incomes := rows.map Row.income
  let expenses := rows.map Row.expense
  { total_amount := format_float (.fin avail.sum)
    average_payment := format_float (meanQ avail)
    min_payment := format_float (match firstMin avail with
      | some p => .fin p.2
      | none => .nan)
    max_payment := format_float (match firstMax avail with
      | some p => .fin p.2
      | none => .nan)
    completion_date := (rows.getLast?).map Row.date
    total_months := rows.length
    total_income := format_float (.fin incomes.sum)
    total_expenses := format_float (.fin expenses.sum)
    average_savings_rate := format_float (meanSkipna (rows.map savingsRateRaw))
    income_trend := trendRate incomes
    expense_trend := trendRate expenses
    overall_savings_rate :=
      format_float (.mul (.div (.fin avail.sum) (.fin incomes.sum)) (.fin 100))
    income_growth := growthStat incomes
    expense_growth := growthStat expenses
    best_month := bestMonth rows
    worst_month := worstMonth rows }

/-- The response object: `{"metrics": ..., "data": ...}` (lines
198-201). -/
structure Schedule where
  metrics : Metrics
  data : List ScheduleRow
deriving DecidableEq, Repr

/-- `required_columns` (line 125). -/
def requiredColumns : List String :=
  ["Month", "Date", "Total Income", "Fixed Expenses"]

/-- `[col for col in required_columns if col not in df.columns]`
(line 126). -/
def missingColumns (cols : List String) : List String :=
  requiredColumns.filter fun c => !cols.contains c

/-- Failure classification of the pipeline stages modelled here.  Earlier
stages (missing file, wrong extension, undecodable bytes) live in the
excluded HTTP layer. -/
inductive ApiError where
  | missingColumns : List String → ApiError
  | internalError : ApiError
deriving DecidableEq, Repr

/-- `generate_schedule` from the column-validation step onwards: the
column names and raw cell rows stand for the parsed DataFrame.  A missing
required column aborts with the full missing list (lines 124-130); an
empty table reaches `iloc[-1]` inside `calculate_monthly_stats`, which
raises and is mapped to the generic 500 handler (lines 206-213); otherwise
the full response object is produced.  The `Except` result captures that a
request yields either a complete response or an error, never a mix. -/
def generateFromTable (cols : List String) (raw : List RawRow) :
    Except ApiError Schedule :=
  let missing := missingColumns cols
  if missing.isEmpty then
    if raw.isEmpty then .error .internalError
    else
      let rows := raw.map normalizeRow
      .ok ⟨buildMetrics rows, scheduleData rows 0⟩
  else .error (.missingColumns missing)

section Lemmas

@[simp] theorem format_float_fin (q : ℚ) : format_float (.fin q) = .fin q := rfl

theorem PFloat.sub_fin (a b : ℚ) : PFloat.sub (.fin a) (.fin b) = .fin (a - b) := by
  simp [PFloat.sub, PFloat.add, PFloat.neg, sub_eq_add_neg]

theorem PFloat.div_fin (a b : ℚ) (hb : b ≠ 0) :
    PFloat.div (.fin a) (.fin b) = .fin (a / b) := by
  simp [PFloat.div, hb]

theorem PFloat.mul_fin (a b : ℚ) : PFloat.mul (.fin a) (.fin b) = .fin (a * b) := rfl

theorem format_float_of_not_nan {x : PFloat} (h : x ≠ .nan) : format_float x = x := by
  cases x <;> simp_all [format_float, PFloat.isNaN]

/-- The schedule loop emits one row per input row. -/
theorem scheduleData_length (rows : List Row) (acc : ℚ) :
    (scheduleData rows acc).length = rows.length := by
  induction rows generalizing acc with
  | nil => rfl
  | cons r rs ih => simp [scheduleData, ih]

/-- Row `i` of the schedule is derived from row `i` of the input; its
balance is the accumulator plus the prefix sum of available money through
row `i`. -/
theorem scheduleData_getElem? (rows : List Row) (acc : ℚ) (i : ℕ) (r : Row)
    (h : rows[i]? = some r) :
    (scheduleData rows acc)[i]? =
      some ⟨r.date, availableMoney r,
        acc + (((rows.take (i + 1)).map availableMoney).sum),
        format_float (savingsRateRaw r)⟩ := by
  induction rows generalizing acc i with
  | nil => simp at h
  | cons x xs ih =>
    cases i with
    | zero =>
      simp only [List.getElem?_cons_zero, Option.some.injEq] at h
      subst h
      simp [scheduleData]
    | succ i =>
      simp only [List.getElem?_cons_succ] at h
      simpa [scheduleData, add_assoc] using ih (acc + availableMoney x) i h

/-- The last schedule row's balance is the accumulator plus the total
available money. -/
theorem scheduleData_getLast? (rows : List Row) (acc : ℚ) (h : rows ≠ []) :
    ((scheduleData rows acc).getLast?).map ScheduleRow.remaining_balance =
      some (acc + (rows.map availableMoney).sum) := by
  induction rows generalizing acc with
  | nil => exact absurd rfl h
  | cons x xs ih =>
    cases xs with
    | nil => simp [scheduleData]
    | cons y ys =>
      have hstep : (scheduleData (x :: y :: ys) acc).getLast? =
          (scheduleData (y :: ys) (acc + availableMoney x)).getLast? := by
        rw [show scheduleData (x :: y :: ys) acc =
            ⟨x.date, availableMoney x, acc + availableMoney x,
              format_float (savingsRateRaw x)⟩ ::
            scheduleData (y :: ys) (acc + availableMoney x) from rfl]
        rw [show scheduleData (y :: ys) (acc + availableMoney x) =
            ⟨y.date, availableMoney y, acc + availableMoney x + availableMoney y,
              format_float (savingsRateRaw y)⟩ ::
            scheduleData ys (acc + availableMoney x + availableMoney y) from rfl]
        exact List.getLast?_cons_cons
      rw [hstep, ih (acc + availableMoney x) (by simp)]
      simp [add_assoc]

/-- Available money sums to income minus expenses, exactly. -/
theorem sum_availableMoney (rows : List Row) :
    (rows.map availableMoney).sum =
      (rows.map Row.income).sum - (rows.map Row.expense).sum := by
  induction rows with
  | nil => simp
  | cons r rs ih => simp [availableMoney, ih]; ring

end Lemmas

/-- Example dataset from §8 of the spec: rows (Jan,1000,600), (Feb,1200,600),
(Mar,900,600). -/
def exRows : List Row :=
  [⟨"Jan", "2024-01-31", 1000, 600⟩,
   ⟨"Feb", "2024-02-29", 1200, 600⟩,
   ⟨"Mar", "2024-03-31", 900, 600⟩]

/-- Claim C1: for every non-empty dataset the last schedule row's
`remaining_balance` (a left-to-right fold) equals the vectorized
`sum(available_money)`, which is also the metrics field `total_amount`.
Stated as exact rational equality, which implies equality within the
claimed `1e-9` tolerance. -/
theorem last_balance_eq_total_available (rows : List Row) (h : rows ≠ []) :
    ((scheduleData rows 0).getLast?).map ScheduleRow.remaining_balance =
      some ((rows.map availableMoney).sum) ∧
    (buildMetrics rows).total_amount = .fin ((rows.map availableMoney).sum) := by
  constructor
  · simpa using scheduleData_getLast? rows 0 h
  · simp [buildMetrics]

/-- Claim C1 witness: on the spec's example dataset the last balance and
`total_amount` are both 1300. -/
theorem last_balance_eq_total_available_witness :
    ((scheduleData exRows 0).getLast?).map ScheduleRow.remaining_balance =
      some 1300 ∧
    (buildMetrics exRows).total_amount = .fin 1300 := by
  have h := last_balance_eq_total_available exRows (by simp [exRows])
  have hsum : (exRows.map availableMoney).sum = 1300 := by
    norm_num [exRows, availableMoney]
  rw [hsum] at h
  exact h

/-- Claim C9: the output data sequence has exactly one schedule row per
input row, in input order: row `i` of the output carries row `i`'s date,
its available money as `payment`, the prefix sum through row `i` as
`remaining_balance`, and its guarded savings rate. -/
theorem schedule_rows_preserve_order (rows : List Row) :
    (scheduleData rows 0).length = rows.length ∧
    ∀ (i : ℕ) (r : Row), rows[i]? = some r →
      (scheduleData rows 0)[i]? =
        some ⟨r.date, availableMoney r,
          (((rows.take (i + 1)).map availableMoney).sum),
          format_float (savingsRateRaw r)⟩ := by
  refine ⟨scheduleData_length rows 0, fun i r h => ?_⟩
  simpa using scheduleData_getElem? rows 0 i r h

/-- Claim C9 witness: on the example dataset, output row 1 is derived from
input row 1 (Feb). -/
theorem schedule_rows_preserve_order_witness :
    (scheduleData exRows 0).length = 3 ∧
    (scheduleData exRows 0)[1]? =
      some ⟨"2024-02-29", 600, 1000, .fin 50⟩ := by
  have h := schedule_rows_preserve_order exRows
  refine ⟨h.1, ?_⟩
  have h2 := h.2 1 ⟨"Feb", "2024-02-29", 1200, 600⟩ (by rfl)
  rw [h2]
  norm_num [exRows, availableMoney, savingsRateRaw, PFloat.div, PFloat.mul,
    format_float, PFloat.isNaN]

/-- Claim C10: the metrics satisfy
`total_amount = total_income - total_expenses` exactly (over the
rationals), because each row's available money is income minus expenses
and all three totals are column sums. -/
theorem total_amount_eq_income_minus_expenses (rows : List Row) :
    (buildMetrics rows).total_amount =
      PFloat.sub (buildMetrics rows).total_income
        (buildMetrics rows).total_expenses ∧
    (buildMetrics rows).total_amount =
      .fin ((rows.map Row.income).sum - (rows.map Row.expense).sum) := by
  constructor
  · simp only [buildMetrics, format_float_fin, PFloat.sub_fin, sum_availableMoney]
  · simp [buildMetrics, sum_availableMoney]

/-- Claim C7: after parsing, the validator reports every absent required
column (membership in the reported list is exactly "required and absent"),
and when any column is missing the pipeline returns the `MissingColumns`
error carrying that full list — an error object, never a partial
schedule. -/
theorem missing_columns_reported (cols : List String) (raw : List RawRow) :
    (∀ c, c ∈ missingColumns cols ↔ c ∈ requiredColumns ∧ c ∉ cols) ∧
    (missingColumns cols ≠ [] →
      generateFromTable cols raw = .error (.missingColumns (missingColumns cols))) := by
  constructor
  · intro c
    simp [missingColumns, List.mem_filter, List.contains, List.elem_iff]
  · intro h
    have hne : (missingColumns cols).isEmpty = false := by
      cases hm : missingColumns cols with
      | nil => exact absurd hm h
      | cons a l => rfl
    simp [generateFromTable, hne]

/-- Claim C7 witness: a table missing only `Fixed Expenses` fails with
`MissingColumns ["Fixed Expenses"]`. -/
theorem missing_columns_reported_witness :
    missingColumns ["Month", "Date", "Total Income"] = ["Fixed Expenses"] ∧
    generateFromTable ["Month", "Date", "Total Income"] [] =
      .error (.missingColumns ["Fixed Expenses"]) := by
  have hmc : missingColumns ["Month", "Date", "Total Income"] = ["Fixed Expenses"] := by
    decide
  refine ⟨hmc, ?_⟩
  have h := (missing_columns_reported ["Month", "Date", "Total Income"] []).2
    (by rw [hmc]; simp)
  rw [hmc] at h
  exact h

/-- The value reported by `firstMax` is an element of the list. -/
theorem firstMax_mem (l : List ℚ) (j : ℕ) (m : ℚ) (h : firstMax l = some (j, m)) :
    m ∈ l := by
  induction l generalizing j m with
  | nil => simp [firstMax] at h
  | cons x xs ih =>
    simp only [firstMax] at h
    cases hfm : firstMax xs with
    | none =>
      rw [hfm] at h
      simp only [Option.some.injEq, Prod.mk.injEq] at h
      simp [← h.2]
    | some p =>
      obtain ⟨j', m'⟩ := p
      simp only [hfm] at h
      by_cases hx : x < m'
      · rw [if_pos hx] at h
        simp only [Option.some.injEq, Prod.mk.injEq] at h
        exact List.mem_cons_of_mem _ (h.2 ▸ ih j' m' hfm)
      · rw [if_neg hx] at h
        simp only [Option.some.injEq, Prod.mk.injEq] at h
        simp [← h.2]

/-- The value reported by `firstMin` is an element of the list. -/
theorem firstMin_mem (l : List ℚ) (j : ℕ) (m : ℚ) (h : firstMin l = some (j, m)) :
    m ∈ l := by
  induction l generalizing j m with
  | nil => simp [firstMin] at h
  | cons x xs ih =>
    simp only [firstMin] at h
    cases hfm : firstMin xs with
    | none =>
      rw [hfm] at h
      simp only [Option.some.injEq, Prod.mk.injEq] at h
      simp [← h.2]
    | some p =>
      obtain ⟨j', m'⟩ := p
      simp only [hfm] at h
      by_cases hx : m' < x
      · rw [if_pos hx] at h
        simp only [Option.some.injEq, Prod.mk.injEq] at h
        exact List.mem_cons_of_mem _ (h.2 ▸ ih j' m' hfm)
      · rw [if_neg hx] at h
        simp only [Option.some.injEq, Prod.mk.injEq] at h
        simp [← h.2]

/-- `firstMax` finds exactly the first index of the maximum: if position
`i` holds `v`, every element is at most `v`, and every earlier element is
strictly below `v`, then `firstMax` reports `(i, v)`. -/
theorem firstMax_spec (l : List ℚ) (i : ℕ) (v : ℚ)
    (hget : l[i]? = some v)
    (hmax : ∀ (j : ℕ) (w : ℚ), l[j]? = some w → w ≤ v)
    (hfirst : ∀ (j : ℕ) (w : ℚ), j < i → l[j]? = some w → w < v) :
    firstMax l = some (i, v) := by
  induction l generalizing i with
  | nil => simp at hget
  | cons x xs ih =>
    cases i with
    | zero =>
      simp only [List.getElem?_cons_zero, Option.some.injEq] at hget
      subst hget
      cases hfm : firstMax xs with
      | none => simp [firstMax, hfm]
      | some p =>
        obtain ⟨j, m⟩ := p
        have hmem : m ∈ xs := firstMax_mem xs j m hfm
        obtain ⟨k, hk⟩ := List.mem_iff_getElem?.mp hmem
        have hle : m ≤ x := hmax (k + 1) m (by simpa using hk)
        simp only [firstMax, hfm]
        rw [if_neg (not_lt.mpr hle)]
    | succ i =>
      simp only [List.getElem?_cons_succ] at hget
      have hx : x < v := hfirst 0 x (Nat.succ_pos i) (by simp)
      have hfm : firstMax xs = some (i, v) := by
        apply ih i hget
        · intro j w hj
          exact hmax (j + 1) w (by simpa using hj)
        · intro j w hji hj
          exact hfirst (j + 1) w (Nat.succ_lt_succ hji) (by simpa using hj)
      simp only [firstMax, hfm]
      rw [if_pos hx]

/-- `firstMin` finds exactly the first index of the minimum. -/
theorem firstMin_spec (l : List ℚ) (i : ℕ) (v : ℚ)
    (hget : l[i]? = some v)
    (hmin : ∀ (j : ℕ) (w : ℚ), l[j]? = some w → v ≤ w)
    (hfirst : ∀ (j : ℕ) (w : ℚ), j < i → l[j]? = some w → v < w) :
    firstMin l = some (i, v) := by
  induction l generalizing i with
  | nil => simp at hget
  | cons x xs ih =>
    cases i with
    | zero =>
      simp only [List.getElem?_cons_zero, Option.some.injEq] at hget
      subst hget
      cases hfm : firstMin xs with
      | none => simp [firstMin, hfm]
      | some p =>
        obtain ⟨j, m⟩ := p
        have hmem : m ∈ xs := firstMin_mem xs j m hfm
        obtain ⟨k, hk⟩ := List.mem_iff_getElem?.mp hmem
        have hle : x ≤ m := hmin (k + 1) m (by simpa using hk)
        simp only [firstMin, hfm]
        rw [if_neg (not_lt.mpr hle)]
    | succ i =>
      simp only [List.getElem?_cons_succ] at hget
      have hx : v < x := hfirst 0 x (Nat.succ_pos i) (by simp)
      have hfm : firstMin xs = some (i, v) := by
        apply ih i hget
        · intro j w hj
          exact hmin (j + 1) w (by simpa using hj)
        · intro j w hji hj
          exact hfirst (j + 1) w (Nat.succ_lt_succ hji) (by simpa using hj)
      simp only [firstMin, hfm]
      rw [if_pos hx]

/-- Claim C8: `best_month` is the month label (not the value) of the row
at the first index attaining the maximum `available_money`, and
`worst_month` is the label at the first index attaining the minimum; ties
resolve to the earliest index. -/
theorem best_worst_month_first_extremum (rows : List Row) (i : ℕ) (r : Row)
    (hget : rows[i]? = some r) :
    ((∀ (j : ℕ) (s : Row), rows[j]? = some s →
        availableMoney s ≤ availableMoney r) →
      (∀ (j : ℕ) (s : Row), j < i → rows[j]? = some s →
        availableMoney s < availableMoney r) →
      bestMonth rows = some r.month) ∧
    ((∀ (j : ℕ) (s : Row), rows[j]? = some s →
        availableMoney r ≤ availableMoney s) →
      (∀ (j : ℕ) (s : Row), j < i → rows[j]? = some s →
        availableMoney r < availableMoney s) →
      worstMonth rows = some r.month) := by
  have hmap : (rows.map availableMoney)[i]? = some (availableMoney r) := by
    rw [List.getElem?_map, hget]
    rfl
  constructor
  · intro hmax hfirst
    have h2 : ∀ (j : ℕ) (w : ℚ), (rows.map availableMoney)[j]? = some w →
        w ≤ availableMoney r := by
      intro j w hw
      rw [List.getElem?_map] at hw
      cases hs : rows[j]? with
      | none => rw [hs] at hw; simp at hw
      | some s =>
        rw [hs] at hw
        simp only [Option.map_some', Option.some.injEq] at hw
        exact hw ▸ hmax j s hs
    have h3 : ∀ (j : ℕ) (w : ℚ), j < i → (rows.map availableMoney)[j]? = some w →
        w < availableMoney r := by
      intro j w hj hw
      rw [List.getElem?_map] at hw
      cases hs : rows[j]? with
      | none => rw [hs] at hw; simp at hw
      | some s =>
        rw [hs] at hw
        simp only [Option.map_some', Option.some.injEq] at hw
        exact hw ▸ hfirst j s hj hs
    have hfm := firstMax_spec (rows.map availableMoney) i (availableMoney r) hmap h2 h3
    simp [bestMonth, hfm, hget]
  · intro hmin hfirst
    have h2 : ∀ (j : ℕ) (w : ℚ), (rows.map availableMoney)[j]? = some w →
        availableMoney r ≤ w := by
      intro j w hw
      rw [List.getElem?_map] at hw
      cases hs : rows[j]? with
      | none => rw [hs] at hw; simp at hw
      | some s =>
        rw [hs] at hw
        simp only [Option.map_some', Option.some.injEq] at hw
        exact hw ▸ hmin j s hs
    have h3 : ∀ (j : ℕ) (w : ℚ), j < i → (rows.map availableMoney)[j]? = some w →
        availableMoney r < w := by
      intro j w hj hw
      rw [List.getElem?_map] at hw
      cases hs : rows[j]? with
      | none => rw [hs] at hw; simp at hw
      | some s =>
        rw [hs] at hw
        simp only [Option.map_some', Option.some.injEq] at hw
        exact hw ▸ hfirst j s hj hs
    have hfm := firstMin_spec (rows.map availableMoney) i (availableMoney r) hmap h2 h3
    simp [worstMonth, hfm, hget]

/-- Claim C8 witness: on the spec's example dataset the best month is
"Feb" (available 600) and the worst is "Mar" (available 300). -/
theorem best_worst_month_first_extremum_witness :
    bestMonth exRows = some "Feb" ∧ worstMonth exRows = some "Mar" := by
  constructor
  · refine (best_worst_month_first_extremum exRows 1
      ⟨"Feb", "2024-02-29", 1200, 600⟩ rfl).1 ?_ ?_
    · intro j s hj
      rcases j with _ | _ | _ | j
      · rw [show exRows[0]? = some (⟨"Jan", "2024-01-31", 1000, 600⟩ : Row) from rfl] at hj
        injection hj with h
        subst h
        norm_num [availableMoney]
      · rw [show exRows[1]? = some (⟨"Feb", "2024-02-29", 1200, 600⟩ : Row) from rfl] at hj
        injection hj with h
        subst h
        norm_num [availableMoney]
      · rw [show exRows[2]? = some (⟨"Mar", "2024-03-31", 900, 600⟩ : Row) from rfl] at hj
        injection hj with h
        subst h
        norm_num [availableMoney]
      · rw [show exRows[j + 3]? = none from rfl] at hj
        exact absurd hj (by simp)
    · intro j s hji hj
      rcases j with _ | j
      · rw [show exRows[0]? = some (⟨"Jan", "2024-01-31", 1000, 600⟩ : Row) from rfl] at hj
        injection hj with h
        subst h
        norm_num [availableMoney]
      · omega
  · refine (best_worst_month_first_extremum exRows 2
      ⟨"Mar", "2024-03-31", 900, 600⟩ rfl).2 ?_ ?_
    · intro j s hj
      rcases j with _ | _ | _ | j
      · rw [show exRows[0]? = some (⟨"Jan", "2024-01-31", 1000, 600⟩ : Row) from rfl] at hj
        injection hj with h
        subst h
        norm_num [availableMoney]
      · rw [show exRows[1]? = some (⟨"Feb", "2024-02-29", 1200, 600⟩ : Row) from rfl] at hj
        injection hj with h
        subst h
        norm_num [availableMoney]
      · rw [show exRows[2]? = some (⟨"Mar", "2024-03-31", 900, 600⟩ : Row) from rfl] at hj
        injection hj with h
        subst h
        norm_num [availableMoney]
      · rw [show exRows[j + 3]? = none from rfl] at hj
        exact absurd hj (by simp)
    · intro j s hji hj
      rcases j with _ | _ | j
      · rw [show exRows[0]? = some (⟨"Jan", "2024-01-31", 1000, 600⟩ : Row) from rfl] at hj
        injection hj with h
        subst h
        norm_num [availableMoney]
      · rw [show exRows[1]? = some (⟨"Feb", "2024-02-29", 1200, 600⟩ : Row) from rfl] at hj
        injection hj with h
        subst h
        norm_num [availableMoney]
      · omega

/-- Claim C3 counterexample: `format_float` does not guard infinity — on
`+inf` it returns `+inf`, not `0.0` (`pd.isna`/`np.isnan` are `False` on
infinities, and `float(inf)` succeeds), refuting the claim at the concrete
input `+inf`. -/
theorem format_float_inf_counterexample :
    format_float PFloat.pinf = PFloat.pinf ∧ format_float PFloat.pinf ≠ PFloat.fin 0 := by
  refine ⟨rfl, ?_⟩
  simp [format_float, PFloat.isNaN]

/-- Claim C3 (amended): `format_float` reports `0.0` for NaN — so NaN
never appears in an output value — and is the identity on finite floats
and on both infinities; infinite statistics pass through unchanged. -/
theorem format_float_guard_cases :
    (∀ x : PFloat, format_float x ≠ .nan) ∧
    format_float .nan = .fin 0 ∧
    (∀ q : ℚ, format_float (.fin q) = .fin q) ∧
    format_float .pinf = .pinf ∧
    format_float .ninf = .ninf := by
  refine ⟨fun x => ?_, rfl, fun q => rfl, rfl, rfl⟩
  cases x <;> simp [format_float, PFloat.isNaN]

/-- Claim C2 counterexample: a one-row dataset with income `"0"` and
expenses `"5"` (so `total_income` is 0 in every row) produces a schedule
row whose `savings_rate` is `-inf`, and `average_savings_rate` is `-inf`
as well — not `0.0`, and an infinity does appear in the response. -/
theorem savings_rate_zero_income_counterexample :
    (generateFromTable requiredColumns [⟨"Jan", "2024-01-31", "0", "5"⟩]).toOption.map
        (fun s => (s.data.map ScheduleRow.savings_rate, s.metrics.average_savings_rate)) =
      some ([PFloat.ninf], PFloat.ninf) ∧
    PFloat.ninf ≠ PFloat.fin 0 := by
  have h0 : normalizeCell "0" = 0 := by
    rw [normalizeCell, show stripNonNumeric "0" = ['0'] by
      simp [stripNonNumeric, keptChar, List.filter]]
    simp [parseNumeric, parseUnsigned, splitOnDot, digitsVal?]
  have h5 : normalizeCell "5" = 5 := by
    rw [normalizeCell, show stripNonNumeric "5" = ['5'] by
      simp [stripNonNumeric, keptChar, List.filter]]
    simp [parseNumeric, parseUnsigned, splitOnDot, digitsVal?]
  have hrow : normalizeRow ⟨"Jan", "2024-01-31", "0", "5"⟩ =
      ⟨"Jan", "2024-01-31", 0, 5⟩ := by
    simp [normalizeRow, h0, h5]
  have hsr : savingsRateRaw ⟨"Jan", "2024-01-31", 0, 5⟩ = .ninf := by
    simp [savingsRateRaw, availableMoney, PFloat.div, PFloat.mul]
    norm_num
  have hmc : missingColumns requiredColumns = [] := by decide
  refine ⟨?_, by simp [format_float, PFloat.isNaN]⟩
  rw [generateFromTable]
  rw [hmc]
  simp only [List.isEmpty_nil, List.isEmpty_cons, List.map_cons, List.map_nil, hrow,
    if_true, Bool.false_eq_true, if_false]
  rw [show ((Except.ok (⟨buildMetrics [⟨"Jan", "2024-01-31", 0, 5⟩],
        scheduleData [⟨"Jan", "2024-01-31", 0, 5⟩] 0⟩ : Schedule)) :
          Except ApiError Schedule).toOption =
      some (⟨buildMetrics [⟨"Jan", "2024-01-31", 0, 5⟩],
        scheduleData [⟨"Jan", "2024-01-31", 0, 5⟩] 0⟩ : Schedule) from rfl]
  simp only [Option.map_some', Option.some.injEq, Prod.mk.injEq]
  constructor
  · simp [scheduleData, hsr, format_float, PFloat.isNaN]
  · norm_num [buildMetrics, meanSkipna, hsr, List.filter, PFloat.isNaN, PFloat.add,
      PFloat.div, format_float]

/-- Claim C2 (amended): the per-row `savings_rate` equals
`available_money / total_income * 100` exactly when `total_income` is
nonzero; when `total_income` is zero it is `0.0` only in the NaN case
(`available_money` also zero), while a nonzero `available_money` over zero
income yields `-inf`/`+inf`, which the guard passes through.  A dataset
whose rows all have zero income and zero expenses reports
`average_savings_rate = 0.0`. -/
theorem savings_rate_guard_cases :
    (∀ r : Row, r.income ≠ 0 →
        format_float (savingsRateRaw r) =
          .fin ((r.income - r.expense) / r.income * 100)) ∧
    (∀ r : Row, r.income = 0 → r.expense = 0 →
        format_float (savingsRateRaw r) = .fin 0) ∧
    (∀ r : Row, r.income = 0 → 0 < r.expense →
        format_float (savingsRateRaw r) = .ninf) ∧
    (∀ r : Row, r.income = 0 → r.expense < 0 →
        format_float (savingsRateRaw r) = .pinf) ∧
    (∀ rows : List Row, (∀ r ∈ rows, r.income = 0 ∧ r.expense = 0) →
        (buildMetrics rows).average_savings_rate = .fin 0) := by
  refine ⟨?_, ?_, ?_, ?_, ?_⟩
  · intro r h
    rw [savingsRateRaw, availableMoney, PFloat.div_fin _ _ h, PFloat.mul_fin,
      format_float_fin]
  · intro r h1 h2
    simp [savingsRateRaw, availableMoney, h1, h2, PFloat.div, PFloat.mul,
      format_float, PFloat.isNaN]
  · intro r h1 h2
    have hd : PFloat.div (.fin (availableMoney r)) (.fin r.income) = .ninf := by
      rw [availableMoney, h1]
      simp only [PFloat.div, zero_sub]
      rw [if_neg (by simp), if_neg (by simpa using lt_asymm h2), if_pos (by simpa using h2)]
    rw [savingsRateRaw, hd]
    simp [PFloat.mul, format_float, PFloat.isNaN]
  · intro r h1 h2
    have hd : PFloat.div (.fin (availableMoney r)) (.fin r.income) = .pinf := by
      rw [availableMoney, h1]
      simp only [PFloat.div, zero_sub]
      rw [if_neg (by simp), if_pos (by simpa using h2)]
    rw [savingsRateRaw, hd]
    simp [PFloat.mul, format_float, PFloat.isNaN]
  · intro rows hall
    have hfilter : (rows.map savingsRateRaw).filter (fun x => !x.isNaN) = [] := by
      rw [List.filter_eq_nil_iff]
      intro x hx
      obtain ⟨r, hr, rfl⟩ := List.mem_map.mp hx
      obtain ⟨h1, h2⟩ := hall r hr
      simp [savingsRateRaw, availableMoney, h1, h2, PFloat.div, PFloat.mul,
        PFloat.isNaN]
    have hmean : meanSkipna (rows.map savingsRateRaw) = .nan := by
      simp only [meanSkipna, hfilter]
      rfl
    simp [buildMetrics, hmean, format_float, PFloat.isNaN]

/-- Claim C2 witness: a row with income 1000 and expenses 600 has savings
rate exactly 40%. -/
theorem savings_rate_guard_cases_witness :
    format_float (savingsRateRaw ⟨"Jan", "2024-01-31", 1000, 600⟩) = .fin 40 := by
  have h := savings_rate_guard_cases.1 ⟨"Jan", "2024-01-31", 1000, 600⟩ (by norm_num)
  rw [h]
  norm_num

/-- Claim C6 counterexample: the series `[0, 5]` has first element 0, yet
the reported growth is `+inf` (`5/0 - 1 = inf`, and the NaN-only guard
passes it through), not `0.0`. -/
theorem growth_stat_zero_first_counterexample :
    growthStat [0, 5] = PFloat.pinf ∧ PFloat.pinf ≠ PFloat.fin 0 := by
  constructor
  · norm_num [growthStat, List.getLast?, PFloat.div, PFloat.sub, PFloat.add,
      PFloat.neg, PFloat.mul, format_float, PFloat.isNaN]
  · simp

/-- Claim C6 (amended): for a non-empty series with first element `f` and
last element `l`, the reported growth is exactly `(l/f - 1) * 100` when
`f ≠ 0`; when `f = 0` it is `0.0` only in the NaN case `l = 0`, while
`l > 0` reports `+inf` and `l < 0` reports `-inf` — the guard does not
zero infinities. -/
theorem growth_stat_cases (s : List ℚ) (f l : ℚ)
    (hf : s.head? = some f) (hl : s.getLast? = some l) :
    (f ≠ 0 → growthStat s = .fin ((l / f - 1) * 100)) ∧
    (f = 0 → l = 0 → growthStat s = .fin 0) ∧
    (f = 0 → 0 < l → growthStat s = .pinf) ∧
    (f = 0 → l < 0 → growthStat s = .ninf) := by
  have hg : growthStat s =
      format_float (.mul (.sub (.div (.fin l) (.fin f)) (.fin 1)) (.fin 100)) := by
    rw [growthStat, hf, hl]
  refine ⟨?_, ?_, ?_, ?_⟩
  · intro h
    rw [hg, PFloat.div_fin _ _ h, PFloat.sub_fin, PFloat.mul_fin, format_float_fin]
  · intro h1 h2
    rw [hg, h1, h2]
    simp [PFloat.div, PFloat.sub, PFloat.add, PFloat.neg, PFloat.mul,
      format_float, PFloat.isNaN]
  · intro h1 h2
    have hd : PFloat.div (.fin l) (.fin f) = .pinf := by
      rw [h1]
      simp only [PFloat.div]
      rw [if_neg (by simp), if_pos h2]
    rw [hg, hd]
    norm_num [PFloat.sub, PFloat.add, PFloat.neg, PFloat.mul, format_float,
      PFloat.isNaN]
  · intro h1 h2
    have hd : PFloat.div (.fin l) (.fin f) = .ninf := by
      rw [h1]
      simp only [PFloat.div]
      rw [if_neg (by simp), if_neg (by simpa using lt_asymm h2), if_pos (by simpa using h2)]
    rw [hg, hd]
    norm_num [PFloat.sub, PFloat.add, PFloat.neg, PFloat.mul, format_float,
      PFloat.isNaN]

/-- Claim C6 witness: growth of `[100, 150]` is exactly 50%. -/
theorem growth_stat_cases_witness : growthStat [100, 150] = .fin 50 := by
  have h := (growth_stat_cases [100, 150] 100 150 rfl rfl).1 (by norm_num)
  rw [h]
  norm_num

/-- Claim C4 counterexample: on the raw cell `"5-3"` the source keeps the
interior minus sign (regex `[^\d.-]` keeps every minus sign), the coercion
fails, and the normalizer yields `0.0`; the claimed algorithm (strip every
character that is not a digit, dot, or leading minus) would strip the
interior minus and parse `"53"` as `53.0`.  The two disagree at this
concrete input, so the claim's description of the stripping step is
false. -/
theorem normalizer_minus_counterexample :
    normalizeCell "5-3" = 0 ∧ specNormalizeCell "5-3" = 53 ∧ (0 : ℚ) ≠ 53 := by
  refine ⟨?_, ?_, by norm_num⟩
  · rw [normalizeCell, show stripNonNumeric "5-3" = ['5', '-', '3'] by
      simp [stripNonNumeric, keptChar, List.filter]]
    rw [show parseNumeric ['5', '-', '3'] = none by
      simp [parseNumeric, parseUnsigned, splitOnDot, digitsVal?]]
    rfl
  · rw [specNormalizeCell, show specStrip "5-3" = ['5', '3'] by
      simp [specStrip, List.filter]]
    simp [parseNumeric, parseUnsigned, splitOnDot, digitsVal?]

/-- Claim C4 (amended): the normalization of a raw cell is total and
two-phase: the cleaning step keeps exactly the digits, dots, and minus
signs (a minus sign anywhere, not only a leading one), and the coercion
step returns the parsed rational on success and `0.0` on failure — never
an error.  (Float overflow to infinity is outside the rational model.) -/
theorem normalizer_total_cases (s : String) :
    (∀ c ∈ stripNonNumeric s, c.isDigit = true ∨ c = '.' ∨ c = '-') ∧
    (parseNumeric (stripNonNumeric s) = none → normalizeCell s = 0) ∧
    (∀ q : ℚ, parseNumeric (stripNonNumeric s) = some q → normalizeCell s = q) := by
  refine ⟨?_, ?_, ?_⟩
  · intro c hc
    have h := List.of_mem_filter hc
    have h2 : (c.isDigit = true ∨ c = '.') ∨ c = '-' := by simpa [keptChar] using h
    tauto
  · intro h
    simp [normalizeCell, h]
  · intro q h
    simp [normalizeCell, h]

/-- Claim C4 witness: the all-letter cell `"abc"` cleans to the empty
string, fails to parse, and normalizes to `0.0`; the messy currency cell
`"$1,234.56"` normalizes to `1234.56`. -/
theorem normalizer_total_cases_witness :
    normalizeCell "abc" = 0 ∧ normalizeCell "$1,234.56" = 1234.56 := by
  constructor
  · refine (normalizer_total_cases "abc").2.1 ?_
    rw [show stripNonNumeric "abc" = [] by simp [stripNonNumeric, keptChar, List.filter]]
    rfl
  · refine (normalizer_total_cases "$1,234.56").2.2 1234.56 ?_
    rw [show stripNonNumeric "$1,234.56" = ['1', '2', '3', '4', '.', '5', '6'] by
      simp [stripNonNumeric, keptChar, List.filter]]
    simp [parseNumeric, parseUnsigned, splitOnDot, digitsVal?]
    norm_num

/-- Folding IEEE addition over finite floats is exact rational
summation. -/
theorem foldl_add_fin (l : List ℚ) (a : ℚ) :
    (l.map PFloat.fin).foldl PFloat.add (.fin a) = .fin (a + l.sum) := by
  induction l generalizing a with
  | nil => simp
  | cons x xs ih =>
    simp only [List.map_cons, List.foldl_cons]
    rw [show PFloat.add (.fin a) (.fin x) = .fin (a + x) from rfl, ih]
    simp [add_assoc]

/-- The NaN-skipping mean of a leading NaN followed by finite entries is
the exact average of those entries. -/
theorem meanSkipna_nan_fins (l : List ℚ) (h : l ≠ []) :
    meanSkipna (.nan :: l.map PFloat.fin) = .fin (l.sum / l.length) := by
  have hfilter : (PFloat.nan :: l.map PFloat.fin).filter (fun x => !x.isNaN) =
      l.map PFloat.fin := by
    rw [show (PFloat.nan :: l.map PFloat.fin).filter (fun x => !x.isNaN) =
        (l.map PFloat.fin).filter (fun x => !x.isNaN) by
      simp [List.filter_cons, PFloat.isNaN]]
    rw [List.filter_eq_self.mpr]
    intro a ha
    obtain ⟨q, _, rfl⟩ := List.mem_map.mp ha
    simp [PFloat.isNaN]
  have hne : (l.map PFloat.fin).isEmpty = false := by
    cases l with
    | nil => exact absurd rfl h
    | cons a as => rfl
  have hlen : (l.length : ℚ) ≠ 0 :=
    Nat.cast_ne_zero.mpr (List.length_pos.mpr h).ne'
  simp only [meanSkipna, hfilter, hne]
  rw [if_neg (by simp)]
  rw [foldl_add_fin, List.length_map, PFloat.div_fin _ _ hlen]
  simp

/-- A series of fewer than two points reports trend `0.0` (the
NaN-skipping mean of no changes is NaN, and the guard zeroes NaN). -/
theorem trendRate_short (s : List ℚ) (h : s.length < 2) : trendRate s = .fin 0 := by
  rcases s with _ | ⟨x, _ | ⟨y, rest⟩⟩
  · simp [trendRate, pct_change, meanSkipna, PFloat.mul, format_float, PFloat.isNaN]
  · simp [trendRate, pct_change, meanSkipna, List.filter, PFloat.isNaN, PFloat.mul,
      format_float]
  · simp only [List.length_cons] at h
    omega

/-- Zipping `n` copies of `q` against `n + 1` copies truncates to `n`
pairs. -/
theorem zip_replicate_succ (n : ℕ) (q : ℚ) :
    (List.replicate n q).zip (List.replicate (n + 1) q) = List.replicate n (q, q) := by
  induction n with
  | zero => simp
  | succ m ih =>
    rw [show List.replicate (m + 1) q = q :: List.replicate m q from rfl,
      show List.replicate (m + 1 + 1) q = q :: List.replicate (m + 1) q from rfl,
      List.zip_cons_cons, ih,
      show List.replicate (m + 1) (q, q) = (q, q) :: List.replicate m (q, q) from rfl]

/-- Claim C5 counterexample: the series `[0, 1]` has a zero predecessor,
its only percent change is `+inf`, the (NaN-skipping) mean is `+inf`, and
the reported trend is `+inf` — not `0.0` as the claim requires for a
non-finite mean. -/
theorem trend_rate_inf_counterexample :
    trendRate [0, 1] = PFloat.pinf ∧ PFloat.pinf ≠ PFloat.fin 0 := by
  constructor
  · rw [trendRate, show pct_change [(0 : ℚ), 1] =
      [PFloat.nan, PFloat.sub (.div (.fin 1) (.fin 0)) (.fin 1)] from rfl]
    norm_num [meanSkipna, List.filter, PFloat.isNaN, PFloat.div, PFloat.sub,
      PFloat.add, PFloat.neg, PFloat.mul, format_float]
  · simp

/-- Claim C5 (amended): the reported trend rate is
`format_float(mean(pct_change) * 100)` where the mean skips NaN changes
(0-to-0 steps): (i) a series of fewer than two points reports `0.0`;
(ii) when every element is nonzero the reported trend is exactly the mean
of the period-over-period percent changes `(S[i]-S[i-1])/S[i-1] * 100`;
(iii) every constant series reports `0.0`.  When a change hits a zero
predecessor with a nonzero successor, the infinite mean passes through as
`±inf` rather than `0.0` (see the counterexample). -/
theorem trend_rate_cases :
    (∀ s : List ℚ, s.length < 2 → trendRate s = .fin 0) ∧
    (∀ (x : ℚ) (xs : List ℚ), xs ≠ [] → (∀ y ∈ x :: xs, y ≠ 0) →
        trendRate (x :: xs) =
          .fin ((((xs.zip (x :: xs)).map fun p => (p.1 - p.2) / p.2).sum /
            (xs.length : ℚ)) * 100)) ∧
    (∀ (n : ℕ) (q : ℚ), trendRate (List.replicate n q) = .fin 0) := by
  have hmain : ∀ (x : ℚ) (xs : List ℚ), xs ≠ [] → (∀ y ∈ x :: xs, y ≠ 0) →
      trendRate (x :: xs) =
        .fin ((((xs.zip (x :: xs)).map fun p => (p.1 - p.2) / p.2).sum /
          (xs.length : ℚ)) * 100) := by
    intro x xs hxs hnz
    have hmap : (xs.zip (x :: xs)).map
          (fun p => PFloat.sub (.div (.fin p.1) (.fin p.2)) (.fin 1)) =
        ((xs.zip (x :: xs)).map fun p => (p.1 - p.2) / p.2).map PFloat.fin := by
      rw [List.map_map]
      refine List.map_congr_left ?_
      intro p hp
      have hp2 : p.2 ≠ 0 := hnz p.2 (List.of_mem_zip hp).2
      simp only [Function.comp]
      rw [PFloat.div_fin _ _ hp2, PFloat.sub_fin]
      congr 1
      rw [sub_div, div_self hp2]
    have hlenzip : (xs.zip (x :: xs)).length = xs.length := by
      rw [List.length_zip, List.length_cons]
      omega
    have hne : ((xs.zip (x :: xs)).map fun p => (p.1 - p.2) / p.2) ≠ [] := by
      intro hc
      have hl := congrArg List.length hc
      rw [List.length_map, hlenzip] at hl
      exact hxs (List.length_eq_zero.mp hl)
    rw [trendRate, show pct_change (x :: xs) = .nan :: (xs.zip (x :: xs)).map
        (fun p => PFloat.sub (.div (.fin p.1) (.fin p.2)) (.fin 1)) from rfl]
    rw [hmap, meanSkipna_nan_fins _ hne]
    rw [List.length_map, hlenzip, PFloat.mul_fin, format_float_fin]
  refine ⟨trendRate_short, hmain, ?_⟩
  intro n q
  match n with
  | 0 => exact trendRate_short [] (by simp)
  | 1 => exact trendRate_short _ (by simp)
  | (m + 2) =>
    rcases eq_or_ne q 0 with hq | hq
    · subst hq
      have hp : pct_change (List.replicate (m + 2) (0 : ℚ)) =
          PFloat.nan :: List.replicate (m + 1) PFloat.nan := by
        rw [show List.replicate (m + 2) (0 : ℚ) = 0 :: List.replicate (m + 1) 0 from rfl]
        rw [show pct_change ((0 : ℚ) :: List.replicate (m + 1) 0) =
          .nan :: ((List.replicate (m + 1) (0 : ℚ)).zip
            ((0 : ℚ) :: List.replicate (m + 1) 0)).map
            (fun p => PFloat.sub (.div (.fin p.1) (.fin p.2)) (.fin 1)) from rfl]
        rw [show (0 : ℚ) :: List.replicate (m + 1) 0 = List.replicate (m + 2) (0 : ℚ) from rfl]
        rw [zip_replicate_succ, List.map_replicate]
        rw [show PFloat.sub (.div (.fin (0 : ℚ)) (.fin (0 : ℚ))) (.fin 1) = .nan by
          simp [PFloat.div, PFloat.sub, PFloat.add, PFloat.neg]]
      rw [trendRate, hp]
      have hfil : (PFloat.nan :: List.replicate (m + 1) PFloat.nan).filter
          (fun x => !x.isNaN) = [] := by
        rw [List.filter_eq_nil_iff]
        intro a ha
        rcases List.mem_cons.mp ha with h | h
        · subst h; simp [PFloat.isNaN]
        · rw [List.eq_of_mem_replicate h]; simp [PFloat.isNaN]
      simp only [meanSkipna, hfil]
      simp [PFloat.mul, format_float, PFloat.isNaN]
    · have hnz : ∀ y ∈ q :: List.replicate (m + 1) q, y ≠ 0 := by
        intro y hy
        rcases List.mem_cons.mp hy with h | h
        · exact h ▸ hq
        · exact (List.eq_of_mem_replicate h) ▸ hq
      have h := hmain q (List.replicate (m + 1) q) (by simp) hnz
      rw [show List.replicate (m + 2) q = q :: List.replicate (m + 1) q from rfl, h]
      have hchanges : ((List.replicate (m + 1) q).zip (q :: List.replicate (m + 1) q)).map
          (fun p => (p.1 - p.2) / p.2) = List.replicate (m + 1) (0 : ℚ) := by
        rw [show q :: List.replicate (m + 1) q = List.replicate (m + 2) q from rfl]
        rw [zip_replicate_succ, List.map_replicate]
        simp
      rw [hchanges]
      simp [List.sum_replicate]

/-- Claim C5 witness: the series `[100, 110]` (all nonzero, two points)
reports a trend of exactly 10%. -/
theorem trend_rate_cases_witness : trendRate [100, 110] = .fin 10 := by
  have h := trend_rate_cases.2.1 100 [110] (by simp) (by
    intro y hy
    rcases List.mem_cons.mp hy with h | h
    · subst h; norm_num
    · simp at h; subst h; norm_num)
  rw [h]
  norm_num [List.zip_cons_cons]
